import Mathlib

/-!
# syft: the logger UI event loop and the Python egg/wheel correlation engine

Part I embeds `LoggerUI` of `internal/ui/logger_output.go` as a step function over the
sequence of inputs observed by its `select` statement.

Part II embeds the test double `pythonTestResolverMock` of
`syft/cataloger/python/package_cataloger_test.go` and, from the specification, the
correlation routine `catalogEggOrWheel` which that test drives.
-/

namespace ui

/-- A non-nil Go `error` value.  The nil error is `Option.none`. -/
structure GoError where
  msg : String
  deriving DecidableEq, Repr

/-- Modelled from the spec: the event type enumeration of `syft/event`, of which only the
terminal value `CatalogerFinished` is inspected by `LoggerUI`; every other value is kept
apart by a tag. -/
inductive EventType where
  | CatalogerFinished
  | other (tag : Nat)
  deriving DecidableEq, Repr

/-- A `partybus.Event`: its type and an opaque payload. -/
structure Event where
  Typ : EventType
  Value : Nat
  deriving DecidableEq, Repr

/-- One wake-up of the `select` in `LoggerUI`: a value received on `workerErrs`
(possibly nil), an event received with `ok = true`, or a receive on the event channel
with `ok = false` (the bus was closed). -/
inductive Input where
  | workerErr (err : Option GoError)
  | event (e : Event)
  | closed
  deriving DecidableEq, Repr

/-- The two control states of the loop: still inside `for { select ... }`, or returned
with the given error value (`none` is Go's nil). -/
inductive Phase where
  | Listening
  | Done (ret : Option GoError)
  deriving DecidableEq, Repr

/-- Everything observable about a run: the control state, the events on which
`common.CatalogerFinishedHandler` was called (in call order), the errors passed to
`log.Errorf`, and how many inputs were taken from the channels. -/
structure State where
  phase : Phase
  handled : List Event
  logged : List GoError
  consumed : Nat
  deriving DecidableEq, Repr

/-- The state on entry to the loop. -/
def State.init : State := ⟨Phase.Listening, [], [], 0⟩

/-- One iteration of the `select` body.  `handler` is `common.CatalogerFinishedHandler`.
Once the function has returned no further input is received. -/
def step (handler : Event → Option GoError) (s : State) (i : Input) : State :=
  match s.phase with
  | Phase.Done _ => s
  | Phase.Listening =>
    match i with
    | Input.workerErr err =>
      match err with
      | some e => { s with phase := Phase.Done (some e), consumed := s.consumed + 1 }
      | none => { s with consumed := s.consumed + 1 }
    | Input.closed =>
      -- event bus closed: break eventLoop, then return nil
      { s with phase := Phase.Done none, consumed := s.consumed + 1 }
    | Input.event e =>
      if e.Typ = EventType.CatalogerFinished then
        match handler e with
        | some herr =>
          { phase := Phase.Done none, handled := s.handled ++ [e],
            logged := s.logged ++ [herr], consumed := s.consumed + 1 }
        | none =>
          { phase := Phase.Done none, handled := s.handled ++ [e],
            logged := s.logged, consumed := s.consumed + 1 }
      else
        { s with consumed := s.consumed + 1 }

/-- The loop of `LoggerUI` run against a finite sequence of select inputs. -/
def LoggerUI (handler : Event → Option GoError) (inputs : List Input) : State :=
  inputs.foldl (step handler) State.init

/-- The value returned by `LoggerUI`, if it has returned: `some none` is a nil return. -/
def State.returned (s : State) : Option (Option GoError) :=
  match s.phase with
  | Phase.Listening => none
  | Phase.Done r => some r

/-- An input that ends the loop: a non-nil worker error, a `CatalogerFinished` event, or
closure of the event channel. -/
def Input.terminating : Input → Bool
  | Input.workerErr (some _) => true
  | Input.workerErr none => false
  | Input.closed => true
  | Input.event e => decide (e.Typ = EventType.CatalogerFinished)

/-- An input the loop skips: a nil worker error or an event of another type. -/
def Input.ignored : Input → Bool
  | Input.workerErr none => true
  | Input.event e => decide (e.Typ ≠ EventType.CatalogerFinished)
  | _ => false

/-- The input is an event of type `CatalogerFinished`. -/
def Input.isFinished : Input → Bool
  | Input.event e => decide (e.Typ = EventType.CatalogerFinished)
  | _ => false

/-- The input is a non-nil error received on `workerErrs`. -/
def Input.isWorkerError : Input → Bool
  | Input.workerErr (some _) => true
  | _ => false

/-- The inputs up to and including the first terminating one (all of them when none is
terminating). -/
def upToTerminating : List Input → List Input
  | [] => []
  | i :: rest => if i.terminating then [i] else i :: upToTerminating rest

end ui

namespace python

/-! ### Go values -/

/-- The result of a Go call: a value, a returned non-nil `error`, or a run-time panic
(such as a nil pointer dereference) that unwinds the caller. -/
inductive Outcome (α : Type) where
  | ok (a : α)
  | error (msg : String)
  | panic (msg : String)
  deriving DecidableEq, Repr

/-- A `file.Reference`: the identity given by `file.NewFileReference` and the path. -/
structure Reference where
  id : Nat
  Path : List Char
  deriving DecidableEq, Repr

/-- The function `strings.Contains`. -/
def stringsContains : List Char → List Char → Bool
  | [], substr => substr.isEmpty
  | c :: cs, substr => substr.isPrefixOf (c :: cs) || stringsContains cs substr

/-! ### The test double of `package_cataloger_test.go` -/

/-- A file opened by `os.Open` and used as an `io.Reader`: a regular file with the
bytes still unread, or a file on which reading fails with an error (a directory, for
one, opens but cannot be read). -/
inductive OpenFile where
  | regular (unread : List Char)
  | unreadable (msg : String)
  deriving DecidableEq, Repr

/-- The struct `pythonTestResolverMock`.  An `io.Reader` field is nil (`none`) or an open
file; a `*file.Reference` field is nil or points to a reference. -/
structure pythonTestResolverMock where
  metadataReader : Option OpenFile
  recordReader : Option OpenFile
  topLevelReader : Option OpenFile
  metadataRef : Option Reference
  recordRef : Option Reference
  topLevelRef : Option Reference
  contents : List (Reference × List Char)
  deriving DecidableEq, Repr

/-- The constructor `newTestResolver`.  `fs` is the file system seen by `os.Open`
(`none`: the file cannot be opened) and `nextID` the counter of
`file.NewFileReference`. -/
def newTestResolver (fs : List Char → Option OpenFile) (nextID : Nat)
    (metaPath recordPath topPath : List Char) : Outcome pythonTestResolverMock :=
  match fs metaPath with
  | none => Outcome.panic "failed to open metadata"
  | some metadataReader =>
    let recordOpen : Outcome (Option OpenFile) :=
      if recordPath ≠ [] then
        match fs recordPath with
        | none => Outcome.panic "failed to open record"
        | some rd => Outcome.ok (some rd)
      else Outcome.ok none
    match recordOpen with
    | Outcome.panic m => Outcome.panic m
    | Outcome.error m => Outcome.error m
    | Outcome.ok recordReader =>
      let topOpen : Outcome (Option OpenFile) :=
        if topPath ≠ [] then
          match fs topPath with
          | none => Outcome.panic "failed to open top level"
          | some rd => Outcome.ok (some rd)
        else Outcome.ok none
      match topOpen with
      | Outcome.panic m => Outcome.panic m
      | Outcome.error m => Outcome.error m
      | Outcome.ok topLevelReader =>
        let recordRef : Option Reference :=
          if recordReader.isSome then
            some ⟨nextID + 1, "test-fixtures/dist-info/RECORD".toList⟩
          else none
        let n1 := if recordReader.isSome then nextID + 1 else nextID
        let topLevelRef : Option Reference :=
          if topLevelReader.isSome then
            some ⟨n1 + 1, "test-fixtures/dist-info/top_level.txt".toList⟩
          else none
        let n2 := if topLevelReader.isSome then n1 + 1 else n1
        Outcome.ok
          { recordReader := recordReader
            metadataReader := some metadataReader
            topLevelReader := topLevelReader
            metadataRef := some ⟨n2 + 1, "test-fixtures/dist-info/METADATA".toList⟩
            recordRef := recordRef
            topLevelRef := topLevelRef
            contents := [] }

/-- The call `ioutil.ReadAll` on an `io.Reader` field: a nil reader panics, a regular
file yields its unread bytes and is left at end of file, and a file that cannot be read
yields the read error. -/
def readAll (reader : Option OpenFile) : Outcome (List Char × Option OpenFile) :=
  match reader with
  | none => Outcome.panic "invalid memory address or nil pointer dereference"
  | some (OpenFile.regular b) => Outcome.ok (b, some (OpenFile.regular []))
  | some (OpenFile.unreadable msg) => Outcome.error msg

/-- The method `pythonTestResolverMock.FileContentsByRef`.  The `case` expressions of
the `switch` are evaluated top to bottom until one equals `ref.Path`; each of them
dereferences a pointer field, which panics when that field is nil.  A read error of
`ioutil.ReadAll` is returned with the empty string. -/
def pythonTestResolverMock.FileContentsByRef (r : pythonTestResolverMock) (ref : Reference) :
    Outcome (List Char × pythonTestResolverMock) :=
  match r.topLevelRef with
  | none => Outcome.panic "invalid memory address or nil pointer dereference"
  | some topLevelRef =>
    if ref.Path = topLevelRef.Path then
      match readAll r.topLevelReader with
      | Outcome.ok (b, rd) => Outcome.ok (b, { r with topLevelReader := rd })
      | Outcome.error m => Outcome.error m
      | Outcome.panic m => Outcome.panic m
    else
      match r.metadataRef with
      | none => Outcome.panic "invalid memory address or nil pointer dereference"
      | some metadataRef =>
        if ref.Path = metadataRef.Path then
          match readAll r.metadataReader with
          | Outcome.ok (b, rd) => Outcome.ok (b, { r with metadataReader := rd })
          | Outcome.error m => Outcome.error m
          | Outcome.panic m => Outcome.panic m
        else
          match r.recordRef with
          | none => Outcome.panic "invalid memory address or nil pointer dereference"
          | some recordRef =>
            if ref.Path = recordRef.Path then
              match readAll r.recordReader with
              | Outcome.ok (b, rd) => Outcome.ok (b, { r with recordReader := rd })
              | Outcome.error m => Outcome.error m
              | Outcome.panic m => Outcome.panic m
            else Outcome.error "invalid value given"

/-- The method `pythonTestResolverMock.RelativeFileByPath`. -/
def pythonTestResolverMock.RelativeFileByPath (r : pythonTestResolverMock) (_ref : Reference)
    (path : List Char) : Outcome (Option Reference × pythonTestResolverMock) :=
  if stringsContains path "RECORD".toList then Outcome.ok (r.recordRef, r)
  else if stringsContains path "top_level.txt".toList then Outcome.ok (r.topLevelRef, r)
  else Outcome.error "invalid RelativeFileByPath value given"

/-! ### The resolver contract and the correlation engine -/

/-- Modelled from the spec: the part of the resolver contract (§4.1) that the
correlation engine calls, `FileContentsByRef` (content by reference) and
`RelativeFileByPath` (sibling lookup, `none` when the path does not exist), over an
explicit resolver state `σ`. -/
structure Resolver (σ : Type) where
  FileContentsByRef : σ → Reference → Outcome (List Char × σ)
  RelativeFileByPath : σ → Reference → List Char → Outcome (Option Reference × σ)

/-- The test double seen through the resolver contract. -/
def mockResolver : Resolver pythonTestResolverMock where
  FileContentsByRef := pythonTestResolverMock.FileContentsByRef
  RelativeFileByPath := pythonTestResolverMock.RelativeFileByPath

/-- Modelled from the spec: a `pkg.Digest`, the (algorithm, encoded value) pair of §3. -/
structure Digest where
  Algorithm : List Char
  Value : List Char
  deriving DecidableEq, Repr

/-- Modelled from the spec: a `pkg.PythonFileRecord` (§3); an absent digest is nil and
an absent size the empty string. -/
structure PythonFileRecord where
  Path : List Char
  Digest : Option Digest
  Size : List Char
  deriving DecidableEq, Repr

/-- Modelled from the spec: the `pkg.PythonPackageMetadata` payload (§3). -/
structure PythonPackageMetadata where
  Name : List Char
  Version : List Char
  License : List Char
  Platform : List Char
  Author : List Char
  AuthorEmail : List Char
  SitePackagesRootPath : List Char
  Files : List PythonFileRecord
  TopLevelPackages : List (List Char)
  deriving DecidableEq, Repr

/-- Modelled from the spec: the ecosystem tag of a package (§3). -/
inductive PkgType where
  | UnknownPkg
  | PythonPkg
  deriving DecidableEq, Repr

/-- Modelled from the spec: the ecosystem label of a package (§3). -/
inductive Language where
  | UnknownLanguage
  | Python
  deriving DecidableEq, Repr

/-- Modelled from the spec: the tag of the metadata variant (§3). -/
inductive MetadataType where
  | UnknownMetadataType
  | PythonPackageMetadataType
  deriving DecidableEq, Repr

/-- Modelled from the spec: a `pkg.Package` (§3) carrying Python metadata. -/
structure Package where
  Name : List Char
  Version : List Char
  FoundBy : List Char
  Source : List Reference
  Licenses : List (List Char)
  Language : Language
  Typ : PkgType
  MetadataType : MetadataType
  Metadata : PythonPackageMetadata
  deriving DecidableEq, Repr

/-- Modelled from the spec: the splitting of a text into lines and of a RECORD row into
comma-separated fields (§4.3 steps 3 and 4), at every occurrence of the separator. -/
def splitOn (sep : Char) : List Char → List (List Char)
  | [] => [[]]
  | c :: cs =>
    if c = sep then [] :: splitOn sep cs
    else
      match splitOn sep cs with
      | [] => [[c]]
      | h :: t => (c :: h) :: t

/-- Modelled from the spec: the split of a digest-spec "on the first `=`" (§4.3 step 3)
and of a header line at its first colon; the second part is empty when the separator
does not occur. -/
def cutAt (sep : Char) : List Char → List Char × List Char
  | [] => ([], [])
  | c :: cs => if c = sep then ([], cs) else ((cutAt sep cs).1.cons c, (cutAt sep cs).2)

/-- Modelled from the spec: the trimming of a line (§4.3 step 4), which removes leading
and trailing white space. -/
def trimSpace (l : List Char) : List Char :=
  ((l.dropWhile Char.isWhitespace).reverse.dropWhile Char.isWhitespace).reverse

/-- Modelled from the spec: the parent directory of a slash-separated path (§4.3 steps 2
and 3), everything before the last slash. -/
def dirOf (p : List Char) : List Char :=
  ((p.reverse.dropWhile (fun c => c != '/')).drop 1).reverse

/-- Modelled from the spec: the path, ending in the given name, of a sibling of the
anchor (§4.3 step 3): the anchor's directory joined with the name. -/
def siblingPath (anchorPath name : List Char) : List Char :=
  dirOf anchorPath ++ '/' :: name

/-- Modelled from the spec: the header block of the anchor (§4.3 step 1), the
`Key: Value` lines before the first blank line, as (key, value) pairs; a line without a
colon carries no key and is ignored. -/
def headerFields (contents : List Char) : List (List Char × List Char) :=
  ((splitOn '\n' contents).takeWhile (fun l => !(trimSpace l).isEmpty)).filterMap
    (fun l => if l.contains ':' then some ((cutAt ':' l).1, trimSpace (cutAt ':' l).2) else none)

/-- Modelled from the spec: the value of the first header with the given key (§4.3
step 1), empty when there is none. -/
def headerValue (fields : List (List Char × List Char)) (key : String) : List Char :=
  match fields.find? (fun kv => kv.1 == key.toList) with
  | some kv => kv.2
  | none => []

/-- Modelled from the spec: parsing of the anchor file (§4.3 steps 1 and 2); the
recognised keys are Name, Version, License, Platform, Author and Author-email, every
other key is ignored, an absent key leaves the empty string, and
`SitePackagesRootPath` is the directory above the anchor's parent directory. -/
def parseWheelOrEggMetadata (path : List Char) (contents : List Char) : PythonPackageMetadata :=
  let fields := headerFields contents
  { Name := headerValue fields "Name"
    Version := headerValue fields "Version"
    License := headerValue fields "License"
    Platform := headerValue fields "Platform"
    Author := headerValue fields "Author"
    AuthorEmail := headerValue fields "Author-email"
    SitePackagesRootPath := dirOf (dirOf path)
    Files := []
    TopLevelPackages := [] }

/-- Modelled from the spec: one row of RECORD (§4.3 step 3), up to three
comma-separated fields path, digest-spec and size; a non-empty digest-spec is split at
its first `=`, an empty or missing one leaves the digest absent, a missing size leaves
the size absent, and a row with more than three fields is malformed and yields no
record. -/
def parseRecordLine (line : List Char) : Option PythonFileRecord :=
  match splitOn ',' line with
  | [path] => some { Path := path, Digest := none, Size := [] }
  | [path, digest] =>
    some { Path := path
           Digest := if digest = [] then none else some ⟨(cutAt '=' digest).1, (cutAt '=' digest).2⟩
           Size := [] }
  | [path, digest, size] =>
    some { Path := path
           Digest := if digest = [] then none else some ⟨(cutAt '=' digest).1, (cutAt '=' digest).2⟩
           Size := size }
  | _ => none

/-- Modelled from the spec: parsing of RECORD (§4.3 step 3), one record per non-empty
line in line order, malformed rows skipped. -/
def parseWheelOrEggRecord (contents : List Char) : List PythonFileRecord :=
  ((splitOn '\n' contents).filter (fun l => !l.isEmpty)).filterMap parseRecordLine

/-- Modelled from the spec: parsing of top_level.txt (§4.3 step 4), one package name
per non-empty line, trimmed. -/
def parseTopLevel (contents : List Char) : List (List Char) :=
  ((splitOn '\n' contents).map trimSpace).filter (fun l => !l.isEmpty)

/-- Modelled from the spec: §4.3 step 3, the sibling RECORD is looked up relative to the
anchor; when it is resolved its content is fetched and parsed, when it is not resolved
there are no file records and no source, and that is not an error.  A failing lookup or
read fails the candidate. -/
def fetchRecordFiles {σ : Type} (R : Resolver σ) (s : σ) (metadataRef : Reference) :
    Outcome ((List PythonFileRecord × List Reference) × σ) :=
  match R.RelativeFileByPath s metadataRef (siblingPath metadataRef.Path "RECORD".toList) with
  | Outcome.error m => Outcome.error m
  | Outcome.panic m => Outcome.panic m
  | Outcome.ok (none, s1) => Outcome.ok (([], []), s1)
  | Outcome.ok (some recordRef, s1) =>
    match R.FileContentsByRef s1 recordRef with
    | Outcome.error m => Outcome.error m
    | Outcome.panic m => Outcome.panic m
    | Outcome.ok (recordContents, s2) =>
      Outcome.ok ((parseWheelOrEggRecord recordContents, [recordRef]), s2)

/-- Modelled from the spec: §4.3 step 4, the sibling top_level.txt is looked up
relative to the anchor; when it is resolved its content is fetched and parsed, when it
is not resolved there are no top-level packages and no source.  A failing lookup or read
fails the candidate. -/
def fetchTopLevelPackages {σ : Type} (R : Resolver σ) (s : σ) (metadataRef : Reference) :
    Outcome ((List (List Char) × List Reference) × σ) :=
  match R.RelativeFileByPath s metadataRef (siblingPath metadataRef.Path "top_level.txt".toList) with
  | Outcome.error m => Outcome.error m
  | Outcome.panic m => Outcome.panic m
  | Outcome.ok (none, s1) => Outcome.ok (([], []), s1)
  | Outcome.ok (some topLevelRef, s1) =>
    match R.FileContentsByRef s1 topLevelRef with
    | Outcome.error m => Outcome.error m
    | Outcome.panic m => Outcome.panic m
    | Outcome.ok (topLevelContents, s2) =>
      Outcome.ok ((parseTopLevel topLevelContents, [topLevelRef]), s2)

/-- Modelled from the spec: §4.3 step 5, the package built from the parsed anchor, the
RECORD rows and the top-level packages; Source is the anchor, then the sources of the
RECORD step, then the sources of the top_level.txt step, and Licenses holds the License
header when there is one. -/
def buildPackage (metadataRef : Reference) (metadata : PythonPackageMetadata)
    (files : List PythonFileRecord) (recordSources : List Reference)
    (pkgs : List (List Char)) (topLevelSources : List Reference) : Package :=
  { Name := metadata.Name
    Version := metadata.Version
    FoundBy := "python-package-cataloger".toList
    Source := [metadataRef] ++ recordSources ++ topLevelSources
    Licenses := if metadata.License = [] then [] else [metadata.License]
    Language := Language.Python
    Typ := PkgType.PythonPkg
    MetadataType := MetadataType.PythonPackageMetadataType
    Metadata := { metadata with Files := files, TopLevelPackages := pkgs } }

/-- Modelled from the spec: the correlation routine `catalogEggOrWheel` (§4.3 steps 1
to 6), whose body is not part of the sources at hand: fetch and parse the anchor,
attach the RECORD rows and the top-level packages of the resolved siblings, and build
the package.  An anchor that cannot be read fails the candidate. -/
def catalogEggOrWheel {σ : Type} (R : Resolver σ) (s : σ) (metadataRef : Reference) :
    Outcome (Package × σ) :=
  match R.FileContentsByRef s metadataRef with
  | Outcome.error m => Outcome.error m
  | Outcome.panic m => Outcome.panic m
  | Outcome.ok (metadataContents, s1) =>
    match fetchRecordFiles R s1 metadataRef with
    | Outcome.error m => Outcome.error m
    | Outcome.panic m => Outcome.panic m
    | Outcome.ok ((files, recordSources), s2) =>
      match fetchTopLevelPackages R s2 metadataRef with
      | Outcome.error m => Outcome.error m
      | Outcome.panic m => Outcome.panic m
      | Outcome.ok ((pkgs, topLevelSources), s3) =>
        Outcome.ok
          (buildPackage metadataRef (parseWheelOrEggMetadata metadataRef.Path metadataContents)
            files recordSources pkgs topLevelSources, s3)

/-- The test double with the three fixture files already opened: the state that
`newTestResolver` returns for the given contents. -/
def openedMock (metadata record topLevel : String) : pythonTestResolverMock :=
  { metadataReader := some (OpenFile.regular metadata.toList)
    recordReader := some (OpenFile.regular record.toList)
    topLevelReader := some (OpenFile.regular topLevel.toList)
    metadataRef := some ⟨3, "test-fixtures/dist-info/METADATA".toList⟩
    recordRef := some ⟨1, "test-fixtures/dist-info/RECORD".toList⟩
    topLevelRef := some ⟨2, "test-fixtures/dist-info/top_level.txt".toList⟩
    contents := [] }

/-- Lines joined by newline characters (no newline after the last line). -/
def joinLines : List (List Char) → List Char
  | [] => []
  | [l] => l
  | l :: ls => l ++ '\n' :: joinLines ls

/-- A RECORD row of one of the two forms `path,algo=value,size` and `path,,`. -/
inductive RecordRow where
  | full (path algo value size : List Char)
  | bare (path : List Char)
  deriving DecidableEq, Repr

/-- The text of a RECORD row. -/
def RecordRow.line : RecordRow → List Char
  | RecordRow.full path algo value size => path ++ ',' :: ((algo ++ '=' :: value) ++ ',' :: size)
  | RecordRow.bare path => path ++ [',', ',']

/-- The record a RECORD row stands for. -/
def RecordRow.record : RecordRow → PythonFileRecord
  | RecordRow.full path algo value size =>
    { Path := path, Digest := some ⟨algo, value⟩, Size := size }
  | RecordRow.bare path => { Path := path, Digest := none, Size := [] }

/-- A field of a row holds neither a comma nor a newline. -/
def plainField (l : List Char) : Bool := decide (',' ∉ l ∧ '\n' ∉ l)

/-- The fields of a row are plain and the algorithm name holds no `=`. -/
def RecordRow.wellFormed : RecordRow → Bool
  | RecordRow.full path algo value size =>
    plainField path && plainField algo && decide ('=' ∉ algo) && plainField value
      && plainField size
  | RecordRow.bare path => plainField path

/-- A line of a RECORD file: a row of one of the two forms, or any other text. -/
inductive RecordLine where
  | row (r : RecordRow)
  | other (text : List Char)
  deriving DecidableEq, Repr

/-- The text of a line. -/
def RecordLine.text : RecordLine → List Char
  | RecordLine.row r => r.line
  | RecordLine.other t => t

/-- A line is one line: a well-formed row, or text without a newline. -/
def RecordLine.wellFormed : RecordLine → Bool
  | RecordLine.row r => r.wellFormed
  | RecordLine.other t => decide ('\n' ∉ t)

/-- The record expected from a line: the record of a row, and for other text whatever the
row parser makes of it when it is not empty. -/
def RecordLine.expected : RecordLine → Option PythonFileRecord
  | RecordLine.row r => some r.record
  | RecordLine.other t => if t.isEmpty then none else parseRecordLine t

/-- The text of a header line `Key: Value`. -/
def headerLine (kv : List Char × List Char) : List Char := kv.1 ++ ':' :: ' ' :: kv.2

/-- The text of an anchor file: its header lines, a blank line, and the lines of its
body. -/
def anchorText (fields : List (List Char × List Char)) (body : List (List Char)) :
    List Char :=
  joinLines (fields.map headerLine ++ [] :: body)

/-- A header is well formed: its key holds neither a colon nor a newline, and its value
holds no newline and neither starts nor ends with white space. -/
def headerWellFormed (kv : List Char × List Char) : Bool :=
  decide (':' ∉ kv.1 ∧ '\n' ∉ kv.1 ∧ '\n' ∉ kv.2)
    && (match kv.2.head? with
        | some ch => !ch.isWhitespace
        | none => true)
    && (match kv.2.getLast? with
        | some ch => !ch.isWhitespace
        | none => true)

/-- The test double as `newTestResolver` returns it when no RECORD path is given: the
record reader and the record reference are nil. -/
def openedMockNoRecord (metadata topLevel : String) : pythonTestResolverMock :=
  { metadataReader := some (OpenFile.regular metadata.toList)
    recordReader := none
    topLevelReader := some (OpenFile.regular topLevel.toList)
    metadataRef := some ⟨3, "test-fixtures/dist-info/METADATA".toList⟩
    recordRef := none
    topLevelRef := some ⟨2, "test-fixtures/dist-info/top_level.txt".toList⟩
    contents := [] }

/-- The anchor reference of the test double. -/
def fixtureAnchor : Reference := ⟨3, "test-fixtures/dist-info/METADATA".toList⟩

/-- The package expected from the test double opened on the given three contents. -/
def fixturePackage (metadata record topLevel : String) : Package :=
  buildPackage fixtureAnchor (parseWheelOrEggMetadata fixtureAnchor.Path metadata.toList)
    (parseWheelOrEggRecord record.toList) [⟨1, "test-fixtures/dist-info/RECORD".toList⟩]
    (parseTopLevel topLevel.toList) [⟨2, "test-fixtures/dist-info/top_level.txt".toList⟩]

end python

/-! ## Theorems -/

namespace ui

/-! ### Helper lemmas for the loop -/

theorem foldl_step_done (handler : Event → Option GoError) (xs : List Input) (s : State)
    (r : Option GoError) (h : s.phase = Phase.Done r) :
    xs.foldl (step handler) s = s := by
  induction xs with
  | nil => rfl
  | cons x xs ih =>
    have hs : step handler s x = s := by simp [step, h]
    simp [List.foldl_cons, hs, ih]

theorem step_of_not_terminating (handler : Event → Option GoError) (s : State) (i : Input)
    (hs : s.phase = Phase.Listening) (hi : i.terminating = false) :
    step handler s i = { s with consumed := s.consumed + 1 } := by
  cases i with
  | workerErr err =>
    cases err with
    | none => simp [step, hs]
    | some e => simp [Input.terminating] at hi
  | closed => simp [Input.terminating] at hi
  | event e =>
    have hne : ¬ e.Typ = EventType.CatalogerFinished := by
      simpa [Input.terminating] using hi
    simp [step, hs, hne]

theorem foldl_step_skip (handler : Event → Option GoError) (pre rest : List Input) (s : State)
    (hs : s.phase = Phase.Listening) (hpre : ∀ i ∈ pre, i.terminating = false) :
    (pre ++ rest).foldl (step handler) s
      = rest.foldl (step handler) { s with consumed := s.consumed + pre.length } := by
  induction pre generalizing s with
  | nil => simp
  | cons x xs ih =>
    have hx : x.terminating = false := hpre x (List.mem_cons_self _ _)
    have hxs : ∀ i ∈ xs, i.terminating = false := fun i hi => hpre i (List.mem_cons_of_mem _ hi)
    rw [List.cons_append, List.foldl_cons, step_of_not_terminating handler s x hs hx]
    rw [ih { s with consumed := s.consumed + 1 } hs hxs]
    simp [Nat.add_assoc, Nat.add_comm 1]

theorem ignored_iff_not_terminating (i : Input) : i.ignored = !i.terminating := by
  cases i with
  | workerErr err => cases err <;> rfl
  | closed => rfl
  | event e => by_cases h : e.Typ = EventType.CatalogerFinished <;> simp [Input.ignored, Input.terminating, h]

theorem step_of_terminating (handler : Event → Option GoError) (s : State) (i : Input)
    (hs : s.phase = Phase.Listening) (hi : i.terminating = true) :
    ∃ r, (step handler s i).phase = Phase.Done r ∧ (step handler s i).consumed = s.consumed + 1 := by
  cases i with
  | workerErr err =>
    cases err with
    | none => simp [Input.terminating] at hi
    | some e => exact ⟨some e, by simp [step, hs], by simp [step, hs]⟩
  | closed => exact ⟨none, by simp [step, hs], by simp [step, hs]⟩
  | event e =>
    have he : e.Typ = EventType.CatalogerFinished := by
      simpa [Input.terminating] using hi
    refine ⟨none, ?_, ?_⟩ <;> cases hh : handler e <;> simp [step, hs, he, hh]

theorem consumed_le_of_terminating_mem (handler : Event → Option GoError)
    (pre rest : List Input) (s : State) (hs : s.phase = Phase.Listening)
    (hmem : ∃ i ∈ pre, i.terminating = true) :
    ((pre ++ rest).foldl (step handler) s).consumed ≤ s.consumed + pre.length := by
  induction pre generalizing s with
  | nil => simp at hmem
  | cons x xs ih =>
    rw [List.cons_append, List.foldl_cons]
    cases hx : x.terminating with
    | true =>
      obtain ⟨r, hr, hc⟩ := step_of_terminating handler s x hs hx
      rw [foldl_step_done handler _ _ r hr, hc]
      simp only [List.length_cons]
      omega
    | false =>
      rw [step_of_not_terminating handler s x hs hx]
      obtain ⟨i, hi, hit⟩ := hmem
      have hixs : i ∈ xs := by
        rcases List.mem_cons.mp hi with h | h
        · subst h; rw [hx] at hit; cases hit
        · exact h
      have := ih { s with consumed := s.consumed + 1 } hs ⟨i, hixs, hit⟩
      simp only [List.length_cons] at this ⊢
      omega

theorem split_first_terminating (inputs : List Input) :
    ((∀ i ∈ inputs, i.terminating = false) ∧ inputs.find? Input.terminating = none
        ∧ upToTerminating inputs = inputs) ∨
    ∃ pre t post, inputs = pre ++ t :: post ∧ (∀ i ∈ pre, i.terminating = false) ∧
      t.terminating = true ∧ inputs.find? Input.terminating = some t ∧
      upToTerminating inputs = pre ++ [t] := by
  induction inputs with
  | nil => left; simp [upToTerminating]
  | cons x xs ih =>
    cases hx : x.terminating with
    | true =>
      right
      exact ⟨[], x, xs, rfl, by simp, hx, by simp [List.find?, hx], by simp [upToTerminating, hx]⟩
    | false =>
      rcases ih with ⟨h1, h2, h3⟩ | ⟨pre, t, post, h1, h2, h3, h4, h5⟩
      · left
        refine ⟨?_, by simp [List.find?, hx, h2], by simp [upToTerminating, hx, h3]⟩
        intro i hi
        rcases List.mem_cons.mp hi with h | h
        · subst h; exact hx
        · exact h1 i h
      · right
        refine ⟨x :: pre, t, post, by simp [h1], ?_, h3, by simp [List.find?, hx, h4],
          by simp [upToTerminating, hx, h5]⟩
        intro i hi
        rcases List.mem_cons.mp hi with h | h
        · subst h; exact hx
        · exact h2 i h

theorem LoggerUI_split (handler : Event → Option GoError) (pre post : List Input) (t : Input)
    (hpre : ∀ i ∈ pre, i.terminating = false) (ht : t.terminating = true) :
    LoggerUI handler (pre ++ t :: post)
      = step handler ⟨Phase.Listening, [], [], pre.length⟩ t := by
  unfold LoggerUI
  rw [foldl_step_skip handler pre (t :: post) State.init rfl hpre, List.foldl_cons]
  obtain ⟨r, hr, _⟩ := step_of_terminating handler
    { State.init with consumed := State.init.consumed + pre.length } t rfl ht
  rw [foldl_step_done handler _ _ r hr]
  simp [State.init]

theorem step_congr (handler : Event → Option GoError) (x : Input) (s s' : State)
    (hp : s.phase = s'.phase) (hh : s.handled = s'.handled) (hl : s.logged = s'.logged) :
    (step handler s x).phase = (step handler s' x).phase ∧
    (step handler s x).handled = (step handler s' x).handled ∧
    (step handler s x).logged = (step handler s' x).logged := by
  cases hph : s'.phase with
  | Done r => simp [step, hp, hph, hh, hl]
  | Listening =>
    cases x with
    | workerErr err => cases err <;> simp [step, hp, hph, hh, hl]
    | closed => simp [step, hp, hph, hh, hl]
    | event ev =>
      by_cases he : ev.Typ = EventType.CatalogerFinished
      · cases hd : handler ev <;> simp [step, hp, hph, hh, hl, he, hd]
      · simp [step, hp, hph, hh, hl, he]

theorem foldl_step_congr (handler : Event → Option GoError) (xs : List Input) (s s' : State)
    (hp : s.phase = s'.phase) (hh : s.handled = s'.handled) (hl : s.logged = s'.logged) :
    (xs.foldl (step handler) s).phase = (xs.foldl (step handler) s').phase ∧
    (xs.foldl (step handler) s).handled = (xs.foldl (step handler) s').handled ∧
    (xs.foldl (step handler) s).logged = (xs.foldl (step handler) s').logged := by
  induction xs generalizing s s' with
  | nil => exact ⟨hp, hh, hl⟩
  | cons x xs ih =>
    obtain ⟨a, b, c⟩ := step_congr handler x s s' hp hh hl
    simpa [List.foldl_cons] using ih _ _ a b c

theorem LoggerUI_no_terminating (handler : Event → Option GoError) (inputs : List Input)
    (h : ∀ i ∈ inputs, i.terminating = false) :
    LoggerUI handler inputs = ⟨Phase.Listening, [], [], inputs.length⟩ := by
  have := foldl_step_skip handler inputs [] State.init rfl h
  simp only [List.append_nil, List.foldl_nil] at this
  unfold LoggerUI
  rw [this]
  simp [State.init]

end ui

namespace ui

/-! ### The event loop: claims about `LoggerUI` -/

/-- C1: when a non-nil worker error `e` is observed by the select (it lies within the
inputs the loop consumed) and no `CatalogerFinished` event and no closure of the event
channel precedes it, `LoggerUI` returns exactly `e` and the completion handler is never
called. -/
theorem LoggerUI_worker_error_returned (handler : Event → Option GoError)
    (pre post : List Input) (e : GoError)
    (hfin : ∀ i ∈ pre, i.isFinished = false)
    (hclosed : ∀ i ∈ pre, i ≠ Input.closed)
    (hobs : pre.length < (LoggerUI handler (pre ++ Input.workerErr (some e) :: post)).consumed) :
    (LoggerUI handler (pre ++ Input.workerErr (some e) :: post)).returned = some (some e) ∧
    (LoggerUI handler (pre ++ Input.workerErr (some e) :: post)).handled = [] := by
  have hpre : ∀ i ∈ pre, i.terminating = false := by
    intro i hi
    cases hterm : i.terminating with
    | false => rfl
    | true =>
      exfalso
      cases i with
      | workerErr err =>
        have hle := consumed_le_of_terminating_mem handler pre (Input.workerErr (some e) :: post)
          State.init rfl ⟨_, hi, hterm⟩
        have h0 : State.init.consumed = 0 := rfl
        unfold LoggerUI at hobs
        omega
      | closed => exact hclosed _ hi rfl
      | event ev =>
        have := hfin _ hi
        simp only [Input.isFinished, Input.terminating] at this hterm
        rw [this] at hterm
        cases hterm
  rw [LoggerUI_split handler pre post (Input.workerErr (some e)) hpre rfl]
  simp [step, State.returned]

theorem LoggerUI_worker_error_returned_witness :
    (LoggerUI (fun _ => some ⟨"handler failed"⟩)
        ([Input.workerErr none, Input.event ⟨EventType.other 3, 0⟩]
          ++ Input.workerErr (some ⟨"worker died"⟩)
            :: [Input.event ⟨EventType.CatalogerFinished, 1⟩, Input.closed])).returned
      = some (some ⟨"worker died"⟩) ∧
    (LoggerUI (fun _ => some ⟨"handler failed"⟩)
        ([Input.workerErr none, Input.event ⟨EventType.other 3, 0⟩]
          ++ Input.workerErr (some ⟨"worker died"⟩)
            :: [Input.event ⟨EventType.CatalogerFinished, 1⟩, Input.closed])).handled = [] :=
  LoggerUI_worker_error_returned (fun _ => some ⟨"handler failed"⟩)
    [Input.workerErr none, Input.event ⟨EventType.other 3, 0⟩]
    [Input.event ⟨EventType.CatalogerFinished, 1⟩, Input.closed] ⟨"worker died"⟩
    (by decide) (by decide) (by decide)

/-- C2: when the first terminating input is an event of type `CatalogerFinished`,
`LoggerUI` calls the completion handler on exactly that event and returns nil, whatever
the handler returns; a handler error is passed to the log and nowhere else. -/
theorem LoggerUI_finished_returns_nil (handler : Event → Option GoError)
    (pre post : List Input) (ev : Event)
    (hpre : ∀ i ∈ pre, i.terminating = false)
    (hev : ev.Typ = EventType.CatalogerFinished) :
    (LoggerUI handler (pre ++ Input.event ev :: post)).returned = some none ∧
    (LoggerUI handler (pre ++ Input.event ev :: post)).handled = [ev] ∧
    (LoggerUI handler (pre ++ Input.event ev :: post)).logged = (handler ev).toList := by
  have ht : (Input.event ev).terminating = true := by simp [Input.terminating, hev]
  rw [LoggerUI_split handler pre post _ hpre ht]
  cases hh : handler ev <;> simp [step, State.returned, hev, hh]

theorem LoggerUI_finished_returns_nil_witness :
    (LoggerUI (fun _ => some ⟨"handler failed"⟩)
        ([Input.workerErr none, Input.event ⟨EventType.other 3, 0⟩]
          ++ Input.event ⟨EventType.CatalogerFinished, 7⟩
            :: [Input.workerErr (some ⟨"late"⟩)])).returned = some none ∧
    (LoggerUI (fun _ => some ⟨"handler failed"⟩)
        ([Input.workerErr none, Input.event ⟨EventType.other 3, 0⟩]
          ++ Input.event ⟨EventType.CatalogerFinished, 7⟩
            :: [Input.workerErr (some ⟨"late"⟩)])).handled
      = [⟨EventType.CatalogerFinished, 7⟩] ∧
    (LoggerUI (fun _ => some ⟨"handler failed"⟩)
        ([Input.workerErr none, Input.event ⟨EventType.other 3, 0⟩]
          ++ Input.event ⟨EventType.CatalogerFinished, 7⟩
            :: [Input.workerErr (some ⟨"late"⟩)])).logged
      = ((fun _ => some ⟨"handler failed"⟩ : Event → Option GoError)
          ⟨EventType.CatalogerFinished, 7⟩).toList :=
  LoggerUI_finished_returns_nil (fun _ => some ⟨"handler failed"⟩)
    [Input.workerErr none, Input.event ⟨EventType.other 3, 0⟩]
    [Input.workerErr (some ⟨"late"⟩)] ⟨EventType.CatalogerFinished, 7⟩
    (by decide) rfl

/-- C3: when the event channel is observed closed and neither a `CatalogerFinished`
event nor a non-nil worker error precedes the closure, `LoggerUI` leaves its loop and
returns nil, and the completion handler is never called. -/
theorem LoggerUI_closed_returns_nil (handler : Event → Option GoError)
    (pre post : List Input)
    (hfin : ∀ i ∈ pre, i.isFinished = false)
    (herr : ∀ i ∈ pre, i.isWorkerError = false) :
    (LoggerUI handler (pre ++ Input.closed :: post)).returned = some none ∧
    (LoggerUI handler (pre ++ Input.closed :: post)).handled = [] := by
  rcases split_first_terminating pre with ⟨h1, _, _⟩ | ⟨a, t, b, h1, h2, h3, _, _⟩
  · rw [LoggerUI_split handler pre post Input.closed h1 rfl]
    simp [step, State.returned]
  · have hmem : t ∈ pre := by rw [h1]; simp
    have ht : t = Input.closed := by
      cases t with
      | workerErr err =>
        cases err with
        | none => simp [Input.terminating] at h3
        | some e => exact absurd (herr _ hmem) (by simp [Input.isWorkerError])
      | closed => rfl
      | event ev =>
        have := hfin _ hmem
        simp only [Input.isFinished, Input.terminating] at this h3
        rw [this] at h3
        cases h3
    subst ht
    rw [h1, List.append_assoc, List.cons_append, LoggerUI_split handler a _ Input.closed h2 rfl]
    simp [step, State.returned]

theorem LoggerUI_closed_returns_nil_witness :
    (LoggerUI (fun _ => none)
        ([Input.event ⟨EventType.other 1, 0⟩, Input.workerErr none, Input.closed]
          ++ Input.closed :: [Input.event ⟨EventType.CatalogerFinished, 2⟩])).returned
      = some none ∧
    (LoggerUI (fun _ => none)
        ([Input.event ⟨EventType.other 1, 0⟩, Input.workerErr none, Input.closed]
          ++ Input.closed :: [Input.event ⟨EventType.CatalogerFinished, 2⟩])).handled = [] :=
  LoggerUI_closed_returns_nil (fun _ => none)
    [Input.event ⟨EventType.other 1, 0⟩, Input.workerErr none, Input.closed]
    [Input.event ⟨EventType.CatalogerFinished, 2⟩]
    (by decide) (by decide)

end ui

namespace ui

/-- C4: an event whose type is not `CatalogerFinished`, and a nil value received on
`workerErrs`, leave the loop in the Listening state with nothing handled or logged; so
replacing the ignored inputs `pre` in front of the rest of the sequence by any other
ignored inputs `pre'` (more, fewer or none) changes neither what `LoggerUI` returns nor
the events the completion handler is called on nor what is logged. -/
theorem LoggerUI_ignored_inputs (handler : Event → Option GoError)
    (pre pre' rest : List Input)
    (hpre : ∀ i ∈ pre, i.ignored = true) (hpre' : ∀ i ∈ pre', i.ignored = true) :
    (∀ (s : State) (ev : Event), s.phase = Phase.Listening →
        ev.Typ ≠ EventType.CatalogerFinished →
        step handler s (Input.event ev) = { s with consumed := s.consumed + 1 }) ∧
    (∀ s : State, s.phase = Phase.Listening →
        step handler s (Input.workerErr none) = { s with consumed := s.consumed + 1 }) ∧
    LoggerUI handler pre = ⟨Phase.Listening, [], [], pre.length⟩ ∧
    (LoggerUI handler (pre ++ rest)).returned = (LoggerUI handler (pre' ++ rest)).returned ∧
    (LoggerUI handler (pre ++ rest)).handled = (LoggerUI handler (pre' ++ rest)).handled ∧
    (LoggerUI handler (pre ++ rest)).logged = (LoggerUI handler (pre' ++ rest)).logged := by
  have hnt : ∀ l : List Input, (∀ i ∈ l, i.ignored = true) → ∀ i ∈ l, i.terminating = false := by
    intro l hl i hi
    have := hl i hi
    rw [ignored_iff_not_terminating] at this
    simpa using this
  have key : ∀ l : List Input, (∀ i ∈ l, i.ignored = true) →
      ((l ++ rest).foldl (step handler) State.init).returned
        = (rest.foldl (step handler) State.init).returned ∧
      ((l ++ rest).foldl (step handler) State.init).handled
        = (rest.foldl (step handler) State.init).handled ∧
      ((l ++ rest).foldl (step handler) State.init).logged
        = (rest.foldl (step handler) State.init).logged := by
    intro l hl
    rw [foldl_step_skip handler l rest State.init rfl (hnt l hl)]
    obtain ⟨c1, c2, c3⟩ := foldl_step_congr handler rest
      { State.init with consumed := State.init.consumed + l.length } State.init rfl rfl rfl
    exact ⟨by simp [State.returned, c1], c2, c3⟩
  refine ⟨?_, ?_, LoggerUI_no_terminating handler pre (hnt pre hpre), ?_⟩
  · intro s ev hs hne
    simp [step, hs, hne]
  · intro s hs
    simp [step, hs]
  · obtain ⟨a1, a2, a3⟩ := key pre hpre
    obtain ⟨b1, b2, b3⟩ := key pre' hpre'
    unfold LoggerUI
    exact ⟨a1.trans b1.symm, a2.trans b2.symm, a3.trans b3.symm⟩

theorem LoggerUI_ignored_inputs_witness :
    (LoggerUI (fun _ => none)
        ([Input.workerErr none, Input.event ⟨EventType.other 2, 5⟩]
          ++ [Input.event ⟨EventType.CatalogerFinished, 9⟩])).handled
      = (LoggerUI (fun _ => none)
        ([] ++ [Input.event ⟨EventType.CatalogerFinished, 9⟩])).handled :=
  (LoggerUI_ignored_inputs (fun _ => none)
    [Input.workerErr none, Input.event ⟨EventType.other 2, 5⟩] []
    [Input.event ⟨EventType.CatalogerFinished, 9⟩] (by decide) (by decide)).2.2.2.2.1

/-- C10: in every run the completion handler is called at most once; it is called
exactly once if and only if the first terminating input is a `CatalogerFinished` event,
and in that case it is called on that event and `LoggerUI` returns nil; the inputs the
loop consumes are exactly those up to and including the first terminating input, and
once `LoggerUI` has returned, inputs that follow change nothing about the run. -/
theorem LoggerUI_handler_once_no_input_after_return (handler : Event → Option GoError)
    (inputs : List Input) :
    (LoggerUI handler inputs).handled.length ≤ 1 ∧
    ((LoggerUI handler inputs).handled.length = 1 ↔
      ∃ ev, ev.Typ = EventType.CatalogerFinished ∧
        inputs.find? Input.terminating = some (Input.event ev)) ∧
    (∀ ev, inputs.find? Input.terminating = some (Input.event ev) →
      (LoggerUI handler inputs).handled = [ev] ∧
      (LoggerUI handler inputs).returned = some none) ∧
    (LoggerUI handler inputs).consumed = (upToTerminating inputs).length ∧
    LoggerUI handler inputs = LoggerUI handler (upToTerminating inputs) ∧
    ((LoggerUI handler inputs).returned ≠ none ↔ ∃ t ∈ inputs, t.terminating = true) ∧
    (∀ following : List Input, (LoggerUI handler inputs).returned ≠ none →
      LoggerUI handler (inputs ++ following) = LoggerUI handler inputs) := by
  rcases split_first_terminating inputs with ⟨h1, h2, h3⟩ | ⟨pre, t, post, h1, h2, h3, h4, h5⟩
  · have hrun := LoggerUI_no_terminating handler inputs h1
    refine ⟨by simp [hrun], ?_, ?_, by simp [hrun, h3], by rw [h3], ?_, ?_⟩
    · constructor
      · intro h; simp [hrun] at h
      · rintro ⟨ev, _, hf⟩; rw [h2] at hf; cases hf
    · intro ev hf; rw [h2] at hf; cases hf
    · constructor
      · intro h; simp [hrun, State.returned] at h
      · rintro ⟨t, ht, htt⟩; rw [h1 t ht] at htt; cases htt
    · intro following h; simp [hrun, State.returned] at h
  · have hrun := LoggerUI_split handler pre post t h2 h3
    have hrun' := LoggerUI_split handler pre [] t h2 h3
    have hfollow : ∀ following : List Input,
        LoggerUI handler (inputs ++ following) = LoggerUI handler inputs := by
      intro following
      rw [h1, List.append_assoc, List.cons_append,
        LoggerUI_split handler pre (post ++ following) t h2 h3, hrun]
    obtain ⟨r, hr, hc⟩ := step_of_terminating handler ⟨Phase.Listening, [], [], pre.length⟩ t rfl h3
    have hret : (LoggerUI handler inputs).returned ≠ none := by
      rw [h1, hrun]; simp [State.returned, hr]
    have hcons : (LoggerUI handler inputs).consumed = (upToTerminating inputs).length := by
      rw [h5, h1, hrun, hc]; simp
    have hupto : LoggerUI handler inputs = LoggerUI handler (upToTerminating inputs) := by
      rw [h5]; rw [h1, hrun, hrun']
    have hmem : ∃ t ∈ inputs, t.terminating = true := ⟨t, by rw [h1]; simp, h3⟩
    have hfinished : ∀ ev, t = Input.event ev →
        (LoggerUI handler inputs).handled = [ev] ∧
        (LoggerUI handler inputs).returned = some none := by
      intro ev htev
      subst htev
      have he : ev.Typ = EventType.CatalogerFinished := by
        simpa [Input.terminating] using h3
      rw [h1, hrun]
      cases hh : handler ev <;> simp [step, he, hh, State.returned]
    refine ⟨?_, ?_, ?_, hcons, hupto, ⟨fun _ => hmem, fun _ => hret⟩,
      fun following _ => hfollow following⟩
    · rw [h1, hrun]
      cases t with
      | workerErr err => cases err <;> simp [step]
      | closed => simp [step]
      | event ev =>
        by_cases he : ev.Typ = EventType.CatalogerFinished
        · cases hh : handler ev <;> simp [step, he, hh]
        · simp [step, he]
    · rw [h4]
      constructor
      · intro hlen
        cases t with
        | workerErr err =>
          rw [h1, hrun] at hlen
          cases err <;> simp [step] at hlen
        | closed =>
          rw [h1, hrun] at hlen
          simp [step] at hlen
        | event ev =>
          exact ⟨ev, by simpa [Input.terminating] using h3, rfl⟩
      · rintro ⟨ev, _, hf⟩
        have htev : t = Input.event ev := Option.some.inj hf
        rw [(hfinished ev htev).1]
        rfl
    · intro ev hf
      rw [h4] at hf
      exact hfinished ev (Option.some.inj hf)

end ui

namespace python

/-! ### Helper lemmas for the correlation engine -/

theorem fetchRecordFiles_ok {σ : Type} (R : Resolver σ) (s s' : σ) (a : Reference)
    (files : List PythonFileRecord) (srcs : List Reference)
    (h : fetchRecordFiles R s a = Outcome.ok ((files, srcs), s')) :
    ∃ recordRef s1, R.RelativeFileByPath s a (siblingPath a.Path "RECORD".toList)
        = Outcome.ok (recordRef, s1) ∧ srcs = recordRef.toList := by
  unfold fetchRecordFiles at h
  split at h
  · cases h
  · cases h
  · rename_i s1 heq
    refine ⟨none, s1, heq, ?_⟩
    simp only [Outcome.ok.injEq, Prod.mk.injEq] at h
    simp [← h.1.2]
  · rename_i ref s1 heq
    refine ⟨some ref, s1, heq, ?_⟩
    split at h
    · cases h
    · cases h
    · simp only [Outcome.ok.injEq, Prod.mk.injEq] at h
      simp [← h.1.2]

theorem fetchTopLevelPackages_ok {σ : Type} (R : Resolver σ) (s s' : σ) (a : Reference)
    (pkgs : List (List Char)) (srcs : List Reference)
    (h : fetchTopLevelPackages R s a = Outcome.ok ((pkgs, srcs), s')) :
    ∃ topLevelRef s1, R.RelativeFileByPath s a (siblingPath a.Path "top_level.txt".toList)
        = Outcome.ok (topLevelRef, s1) ∧ srcs = topLevelRef.toList := by
  unfold fetchTopLevelPackages at h
  split at h
  · cases h
  · cases h
  · rename_i s1 heq
    refine ⟨none, s1, heq, ?_⟩
    simp only [Outcome.ok.injEq, Prod.mk.injEq] at h
    simp [← h.1.2]
  · rename_i ref s1 heq
    refine ⟨some ref, s1, heq, ?_⟩
    split at h
    · cases h
    · cases h
    · simp only [Outcome.ok.injEq, Prod.mk.injEq] at h
      simp [← h.1.2]

theorem catalogEggOrWheel_ok_inv {σ : Type} (R : Resolver σ) (s s' : σ) (a : Reference)
    (p : Package) (h : catalogEggOrWheel R s a = Outcome.ok (p, s')) :
    ∃ c s1 files recordSources s2 pkgs topLevelSources,
      R.FileContentsByRef s a = Outcome.ok (c, s1) ∧
      fetchRecordFiles R s1 a = Outcome.ok ((files, recordSources), s2) ∧
      fetchTopLevelPackages R s2 a = Outcome.ok ((pkgs, topLevelSources), s') ∧
      p = buildPackage a (parseWheelOrEggMetadata a.Path c) files recordSources
            pkgs topLevelSources := by
  unfold catalogEggOrWheel at h
  split at h
  · cases h
  · cases h
  · rename_i c s1 h1
    split at h
    · cases h
    · cases h
    · rename_i files rsrc s2 h2
      split at h
      · cases h
      · cases h
      · rename_i pkgs tsrc s3 h3
        simp only [Outcome.ok.injEq, Prod.mk.injEq] at h
        obtain ⟨hp, hs⟩ := h
        subst hs
        exact ⟨c, s1, files, rsrc, s2, pkgs, tsrc, h1, h2, h3, hp.symm⟩

theorem catalogEggOrWheel_ok_of {σ : Type} (R : Resolver σ) (s s1 s2 s3 : σ) (a : Reference)
    (c : List Char) (files : List PythonFileRecord) (recordSources : List Reference)
    (pkgs : List (List Char)) (topLevelSources : List Reference)
    (h1 : R.FileContentsByRef s a = Outcome.ok (c, s1))
    (h2 : fetchRecordFiles R s1 a = Outcome.ok ((files, recordSources), s2))
    (h3 : fetchTopLevelPackages R s2 a = Outcome.ok ((pkgs, topLevelSources), s3)) :
    catalogEggOrWheel R s a
      = Outcome.ok (buildPackage a (parseWheelOrEggMetadata a.Path c) files recordSources
          pkgs topLevelSources, s3) := by
  simp [catalogEggOrWheel, h1, h2, h3]

/-! ### The correlation engine: claims about `catalogEggOrWheel` -/

/-- C5: whenever `catalogEggOrWheel` succeeds, the Source of the returned package is the
anchor reference, followed by the RECORD reference if `RelativeFileByPath` resolved one,
followed by the top_level.txt reference if `RelativeFileByPath` resolved one, in that
order; its length is one plus the number of resolved siblings and its first element is
the anchor. -/
theorem catalogEggOrWheel_source_order {σ : Type} (R : Resolver σ) (s s' : σ)
    (anchor : Reference) (p : Package)
    (h : catalogEggOrWheel R s anchor = Outcome.ok (p, s')) :
    ∃ (recordRef topLevelRef : Option Reference) (c : List Char) (s1 s2 s3 s4 : σ),
      R.FileContentsByRef s anchor = Outcome.ok (c, s1) ∧
      R.RelativeFileByPath s1 anchor (siblingPath anchor.Path "RECORD".toList)
        = Outcome.ok (recordRef, s2) ∧
      fetchRecordFiles R s1 anchor = Outcome.ok ((p.Metadata.Files, recordRef.toList), s3) ∧
      R.RelativeFileByPath s3 anchor (siblingPath anchor.Path "top_level.txt".toList)
        = Outcome.ok (topLevelRef, s4) ∧
      fetchTopLevelPackages R s3 anchor
        = Outcome.ok ((p.Metadata.TopLevelPackages, topLevelRef.toList), s') ∧
      p.Source = anchor :: (recordRef.toList ++ topLevelRef.toList) ∧
      p.Source.length = 1 + recordRef.toList.length + topLevelRef.toList.length ∧
      p.Source.head? = some anchor := by
  obtain ⟨c, s1, files, rsrc, s3, pkgs, tsrc, h1, h2, h3, hp⟩ :=
    catalogEggOrWheel_ok_inv R s s' anchor p h
  obtain ⟨recordRef, s2, hr, hrs⟩ := fetchRecordFiles_ok R s1 s3 anchor files rsrc h2
  obtain ⟨topLevelRef, s4, ht, hts⟩ := fetchTopLevelPackages_ok R s3 s' anchor pkgs tsrc h3
  subst hrs hts hp
  refine ⟨recordRef, topLevelRef, c, s1, s2, s3, s4, h1, hr, h2, ht, h3, ?_, ?_, ?_⟩
  · simp [buildPackage]
  · simp [buildPackage]; omega
  · simp [buildPackage]

theorem catalogEggOrWheel_source_order_witness :
    ∃ (recordRef topLevelRef : Option Reference) (c : List Char)
      (s1 s2 s3 s4 : pythonTestResolverMock),
      mockResolver.FileContentsByRef (openedMock "Name: x\n" "a,,\n" "x\n") fixtureAnchor
        = Outcome.ok (c, s1) ∧
      mockResolver.RelativeFileByPath s1 fixtureAnchor
          (siblingPath fixtureAnchor.Path "RECORD".toList) = Outcome.ok (recordRef, s2) ∧
      fetchRecordFiles mockResolver s1 fixtureAnchor
        = Outcome.ok (((fixturePackage "Name: x\n" "a,,\n" "x\n").Metadata.Files,
            recordRef.toList), s3) ∧
      mockResolver.RelativeFileByPath s3 fixtureAnchor
          (siblingPath fixtureAnchor.Path "top_level.txt".toList)
        = Outcome.ok (topLevelRef, s4) ∧
      fetchTopLevelPackages mockResolver s3 fixtureAnchor
        = Outcome.ok (((fixturePackage "Name: x\n" "a,,\n" "x\n").Metadata.TopLevelPackages,
            topLevelRef.toList), openedMock "" "" "") ∧
      (fixturePackage "Name: x\n" "a,,\n" "x\n").Source
        = fixtureAnchor :: (recordRef.toList ++ topLevelRef.toList) ∧
      (fixturePackage "Name: x\n" "a,,\n" "x\n").Source.length
        = 1 + recordRef.toList.length + topLevelRef.toList.length ∧
      (fixturePackage "Name: x\n" "a,,\n" "x\n").Source.head? = some fixtureAnchor :=
  catalogEggOrWheel_source_order mockResolver (openedMock "Name: x\n" "a,,\n" "x\n")
    (openedMock "" "" "") fixtureAnchor (fixturePackage "Name: x\n" "a,,\n" "x\n") (by decide)

end python

namespace python

/-- C9: with the test double built by `newTestResolver` from an empty record path and an
empty top-level path, both sibling references are nil, and cataloguing the anchor does
not complete: `FileContentsByRef` dereferences the nil `topLevelRef` in its first `case`
and panics before any package is produced. -/
theorem catalogEggOrWheel_mock_without_siblings_panics (metadataFile : OpenFile)
    (metaPath : List Char) (nextID : Nat) :
    ∃ r : pythonTestResolverMock,
      newTestResolver (fun _ => some metadataFile) nextID metaPath [] [] = Outcome.ok r ∧
      r.recordRef = none ∧ r.topLevelRef = none ∧
      r.metadataRef = some ⟨nextID + 1, "test-fixtures/dist-info/METADATA".toList⟩ ∧
      r.FileContentsByRef ⟨nextID + 1, "test-fixtures/dist-info/METADATA".toList⟩
        = Outcome.panic "invalid memory address or nil pointer dereference" ∧
      catalogEggOrWheel mockResolver r ⟨nextID + 1, "test-fixtures/dist-info/METADATA".toList⟩
        = Outcome.panic "invalid memory address or nil pointer dereference" := by
  refine ⟨_, rfl, rfl, rfl, rfl, rfl, rfl⟩

end python

namespace python

/-! ### Helper lemmas for the text functions -/

theorem splitOn_ne_nil (sep : Char) (l : List Char) : splitOn sep l ≠ [] := by
  cases l with
  | nil => simp [splitOn]
  | cons c cs =>
    unfold splitOn
    split
    · simp
    · split <;> simp

theorem splitOn_of_not_mem (sep : Char) (l : List Char) (h : sep ∉ l) :
    splitOn sep l = [l] := by
  induction l with
  | nil => rfl
  | cons c cs ih =>
    have hc : c ≠ sep := fun e => h (by simp [e])
    have hcs : sep ∉ cs := fun e => h (List.mem_cons_of_mem _ e)
    simp [splitOn, hc, ih hcs]

theorem splitOn_append_cons (sep : Char) (a b : List Char) (h : sep ∉ a) :
    splitOn sep (a ++ sep :: b) = a :: splitOn sep b := by
  induction a with
  | nil => simp [splitOn]
  | cons c cs ih =>
    have hc : c ≠ sep := fun e => h (by simp [e])
    have hcs : sep ∉ cs := fun e => h (List.mem_cons_of_mem _ e)
    simp [splitOn, hc, ih hcs]

theorem splitOn_joinLines (ls : List (List Char)) (hne : ls ≠ [])
    (h : ∀ l ∈ ls, '\n' ∉ l) : splitOn '\n' (joinLines ls) = ls := by
  induction ls with
  | nil => exact absurd rfl hne
  | cons l rest ih =>
    have hl : '\n' ∉ l := h l (List.mem_cons_self _ _)
    cases rest with
    | nil => simpa [joinLines] using splitOn_of_not_mem '\n' l hl
    | cons l2 rest2 =>
      have hrest : ∀ x ∈ l2 :: rest2, '\n' ∉ x := fun x hx => h x (List.mem_cons_of_mem _ hx)
      have hj : joinLines (l :: l2 :: rest2) = l ++ '\n' :: joinLines (l2 :: rest2) := rfl
      rw [hj, splitOn_append_cons '\n' l _ hl, ih (List.cons_ne_nil _ _) hrest]

theorem joinLines_splitOn (c : List Char) : joinLines (splitOn '\n' c) = c := by
  induction c with
  | nil => rfl
  | cons x xs ih =>
    unfold splitOn
    by_cases hx : x = '\n'
    · simp only [hx, if_true]
      cases hs : splitOn '\n' xs with
      | nil => exact absurd hs (splitOn_ne_nil _ _)
      | cons h t => rw [hs] at ih; simp [joinLines, ih]
    · simp only [hx, if_false]
      cases hs : splitOn '\n' xs with
      | nil => exact absurd hs (splitOn_ne_nil _ _)
      | cons h t =>
        rw [hs] at ih
        cases t with
        | nil => simpa [joinLines] using ih
        | cons t1 t2 => simp only [joinLines] at ih ⊢; simp [← ih]

theorem not_mem_of_mem_splitOn (sep : Char) (c l : List Char) (h : l ∈ splitOn sep c) :
    sep ∉ l := by
  induction c generalizing l with
  | nil => simp [splitOn] at h; simp [h]
  | cons x xs ih =>
    unfold splitOn at h
    by_cases hx : x = sep
    · simp only [hx, if_true, List.mem_cons] at h
      rcases h with h | h
      · simp [h]
      · exact ih l h
    · simp only [hx, if_false] at h
      cases hs : splitOn sep xs with
      | nil => exact absurd hs (splitOn_ne_nil _ _)
      | cons a t =>
        rw [hs] at h ih
        simp only [List.mem_cons] at h
        rcases h with h | h
        · subst h
          have := ih a (by simp)
          intro hmem
          rcases List.mem_cons.mp hmem with e | e
          · exact hx e.symm
          · exact this e
        · exact ih l (by simp [h])

theorem cutAt_append_cons (sep : Char) (a b : List Char) (h : sep ∉ a) :
    cutAt sep (a ++ sep :: b) = (a, b) := by
  induction a with
  | nil => simp [cutAt]
  | cons c cs ih =>
    have hc : c ≠ sep := fun e => h (by simp [e])
    have hcs : sep ∉ cs := fun e => h (List.mem_cons_of_mem _ e)
    simp [cutAt, hc, ih hcs]

theorem parseRecordLine_row (r : RecordRow) (h : r.wellFormed = true) :
    parseRecordLine r.line = some r.record := by
  cases r with
  | full path algo value size =>
    simp only [RecordRow.wellFormed, plainField, Bool.and_eq_true, decide_eq_true_eq] at h
    obtain ⟨⟨⟨⟨⟨hp, _⟩, ⟨ha, _⟩⟩, hae⟩, ⟨hv, _⟩⟩, ⟨hs, _⟩⟩ := h
    have hd : ',' ∉ algo ++ '=' :: value := by
      simp only [List.mem_append, List.mem_cons, not_or]
      exact ⟨ha, by decide, hv⟩
    have hsplit : splitOn ',' (RecordRow.full path algo value size).line
        = [path, algo ++ '=' :: value, size] := by
      simp only [RecordRow.line]
      rw [splitOn_append_cons ',' path _ hp, splitOn_append_cons ',' _ size hd,
        splitOn_of_not_mem ',' size hs]
    unfold parseRecordLine
    rw [hsplit]
    simp [RecordRow.record, cutAt_append_cons '=' algo value hae]
  | bare path =>
    simp only [RecordRow.wellFormed, plainField, decide_eq_true_eq] at h
    have hsplit : splitOn ',' (RecordRow.bare path).line = [path, [], []] := by
      simp only [RecordRow.line]
      rw [show path ++ [',', ','] = path ++ ',' :: ([] ++ ',' :: []) from rfl,
        splitOn_append_cons ',' path _ h.1, splitOn_append_cons ',' [] [] (by simp)]
      rfl
    unfold parseRecordLine
    rw [hsplit]
    simp [RecordRow.record]

theorem RecordRow.line_ne_nil (r : RecordRow) : r.line ≠ [] := by
  cases r <;> simp [RecordRow.line]

theorem RecordRow.newline_not_mem_line (r : RecordRow) (h : r.wellFormed = true) :
    '\n' ∉ r.line := by
  cases r with
  | full path algo value size =>
    simp only [RecordRow.wellFormed, plainField, Bool.and_eq_true, decide_eq_true_eq] at h
    obtain ⟨⟨⟨⟨⟨_, hp⟩, ⟨_, ha⟩⟩, _⟩, ⟨_, hv⟩⟩, ⟨_, hs⟩⟩ := h
    simp only [RecordRow.line, List.mem_append, List.mem_cons, not_or]
    exact ⟨hp, by decide, ⟨ha, by decide, hv⟩, by decide, hs⟩
  | bare path =>
    simp only [RecordRow.wellFormed, plainField, decide_eq_true_eq] at h
    simp only [RecordRow.line, List.mem_append, List.mem_cons, not_or]
    exact ⟨h.2, by decide, by decide, by simp⟩

theorem parseWheelOrEggRecord_joinLines (ls : List RecordLine)
    (h : ∀ l ∈ ls, l.wellFormed = true) :
    parseWheelOrEggRecord (joinLines (ls.map RecordLine.text))
      = ls.filterMap RecordLine.expected := by
  cases ls with
  | nil => rfl
  | cons l0 rest =>
    have hnl : ∀ t ∈ (l0 :: rest).map RecordLine.text, '\n' ∉ t := by
      intro t ht
      obtain ⟨l, hl, rfl⟩ := List.mem_map.mp ht
      have hw := h l hl
      cases l with
      | row r => exact RecordRow.newline_not_mem_line r hw
      | other t => simpa [RecordLine.wellFormed] using hw
    unfold parseWheelOrEggRecord
    rw [splitOn_joinLines _ (by simp) hnl]
    generalize l0 :: rest = all at h
    clear hnl
    induction all with
    | nil => rfl
    | cons l ls ih =>
      have hl := h l (List.mem_cons_self _ _)
      have ih' := ih (fun x hx => h x (List.mem_cons_of_mem _ hx))
      cases l with
      | row r =>
        have hne : r.line ≠ [] := RecordRow.line_ne_nil r
        simp only [List.map_cons, RecordLine.text, RecordLine.expected]
        rw [List.filter_cons_of_pos (by simpa using hne), List.filterMap_cons_some
          (parseRecordLine_row r hl), ih']
        exact (List.filterMap_cons_some (f := RecordLine.expected) (a := RecordLine.row r)
          (l := ls) rfl).symm
      | other t =>
        simp only [List.map_cons, RecordLine.text]
        by_cases ht : t = []
        · subst ht
          rw [List.filter_cons_of_neg (by simp), ih']
          simp [RecordLine.expected]
        · rw [List.filter_cons_of_pos (by simpa using ht)]
          cases hp : parseRecordLine t with
          | none =>
            rw [List.filterMap_cons_none hp, ih']
            simp [RecordLine.expected, ht, hp]
          | some rec =>
            rw [List.filterMap_cons_some hp, ih']
            simp [RecordLine.expected, ht, hp]

end python

namespace python

theorem mem_joinLines (ls : List (List Char)) (l : List Char) (ch : Char)
    (hl : l ∈ ls) (hch : ch ∈ l) : ch ∈ joinLines ls := by
  induction ls with
  | nil => cases hl
  | cons x xs ih =>
    cases xs with
    | nil =>
      simp only [List.mem_singleton] at hl
      subst hl
      simpa [joinLines] using hch
    | cons y ys =>
      have hj : joinLines (x :: y :: ys) = x ++ '\n' :: joinLines (y :: ys) := rfl
      rw [hj]
      rcases List.mem_cons.mp hl with h | h
      · subst h; simp [hch]
      · simp [ih h]

theorem dropWhile_append_of_all (p : Char → Bool) (a b : List Char) (h : ∀ x ∈ a, p x = true) :
    (a ++ b).dropWhile p = b.dropWhile p := by
  induction a with
  | nil => rfl
  | cons x xs ih =>
    have hx := h x (List.mem_cons_self _ _)
    simp [List.dropWhile_cons, hx, ih (fun y hy => h y (List.mem_cons_of_mem _ hy))]

theorem trimSpace_of_whitespace (l : List Char) (h : ∀ ch ∈ l, ch.isWhitespace = true) :
    trimSpace l = [] := by
  have := dropWhile_append_of_all Char.isWhitespace l [] h
  simp only [List.append_nil, List.dropWhile_nil] at this
  simp [trimSpace, this]

theorem trimSpace_pad (lead core trail : List Char)
    (hlead : ∀ ch ∈ lead, ch.isWhitespace = true)
    (htrail : ∀ ch ∈ trail, ch.isWhitespace = true)
    (hhead : ∀ ch, core.head? = some ch → ch.isWhitespace = false)
    (hlast : ∀ ch, core.getLast? = some ch → ch.isWhitespace = false) :
    trimSpace (lead ++ core ++ trail) = core := by
  cases core with
  | nil =>
    apply trimSpace_of_whitespace
    intro ch hch
    simp only [List.append_nil, List.mem_append] at hch
    rcases hch with h | h
    · exact hlead ch h
    · exact htrail ch h
  | cons x xs =>
    have hx : x.isWhitespace = false := hhead x rfl
    unfold trimSpace
    rw [List.append_assoc, dropWhile_append_of_all _ lead _ hlead]
    have h1 : ((x :: xs) ++ trail).dropWhile Char.isWhitespace = (x :: xs) ++ trail := by
      simp [List.dropWhile_cons, hx]
    rw [h1, List.reverse_append,
      dropWhile_append_of_all _ trail.reverse _ (fun c hc => htrail c (List.mem_reverse.mp hc))]
    have h2 : ∀ c, (x :: xs).reverse.head? = some c → c.isWhitespace = false := by
      intro c hc
      apply hlast c
      rw [List.head?_reverse] at hc
      exact hc
    cases hr : (x :: xs).reverse with
    | nil => simp at hr
    | cons y ys =>
      rw [hr] at h2
      have hy : y.isWhitespace = false := h2 y rfl
      rw [List.dropWhile_cons]
      simp only [hy]
      rw [← hr]
      simp

end python

namespace python

/-- C7: RECORD parsing is line by line and order preserving.  For every RECORD content,
given as its lines, a line `path,algo=value,size` yields the record with that path, the
digest (algo, value) and that size, a line `path,,` yields the record with that path, no
digest and an empty size, the parse never fails, and the records appear in line order;
and when `catalogEggOrWheel` reads that content from the resolved RECORD the Files of
the package are exactly these records. -/
theorem catalogEggOrWheel_record_rows (ls : List RecordLine)
    (hwf : ∀ l ∈ ls, l.wellFormed = true) :
    (∀ path algo value size, RecordLine.row (RecordRow.full path algo value size) ∈ ls →
      parseRecordLine (path ++ ',' :: ((algo ++ '=' :: value) ++ ',' :: size))
        = some { Path := path, Digest := some ⟨algo, value⟩, Size := size }) ∧
    (∀ path, RecordLine.row (RecordRow.bare path) ∈ ls →
      parseRecordLine (path ++ [',', ','])
        = some { Path := path, Digest := none, Size := [] }) ∧
    parseWheelOrEggRecord (joinLines (ls.map RecordLine.text))
      = ls.filterMap RecordLine.expected ∧
    (∀ rows : List RecordRow, ls = rows.map RecordLine.row →
      parseWheelOrEggRecord (joinLines (ls.map RecordLine.text))
        = rows.map RecordRow.record) ∧
    (∀ (σ : Type) (R : Resolver σ) (s s1 s2 s3 s4 : σ) (anchor recordRef : Reference)
      (c : List Char) (pkgs : List (List Char)) (topLevelSources : List Reference),
      R.FileContentsByRef s anchor = Outcome.ok (c, s1) →
      R.RelativeFileByPath s1 anchor (siblingPath anchor.Path "RECORD".toList)
        = Outcome.ok (some recordRef, s2) →
      R.FileContentsByRef s2 recordRef
        = Outcome.ok (joinLines (ls.map RecordLine.text), s3) →
      fetchTopLevelPackages R s3 anchor = Outcome.ok ((pkgs, topLevelSources), s4) →
      ∃ p, catalogEggOrWheel R s anchor = Outcome.ok (p, s4) ∧
        p.Metadata.Files = ls.filterMap RecordLine.expected) := by
  have hparse := parseWheelOrEggRecord_joinLines ls hwf
  refine ⟨?_, ?_, hparse, ?_, ?_⟩
  · intro path algo value size hmem
    exact parseRecordLine_row (RecordRow.full path algo value size) (hwf _ hmem)
  · intro path hmem
    exact parseRecordLine_row (RecordRow.bare path) (hwf _ hmem)
  · intro rows hrows
    rw [hparse, hrows]
    clear hparse hrows hwf
    induction rows with
    | nil => rfl
    | cons r rs ih =>
      rw [List.map_cons, List.map_cons]
      exact (List.filterMap_cons_some (f := RecordLine.expected) (a := RecordLine.row r)
        (l := rs.map RecordLine.row) rfl).trans (by rw [ih])
  · intro σ R s s1 s2 s3 s4 anchor recordRef c pkgs topLevelSources h1 h2 h3 h4
    have hrec : fetchRecordFiles R s1 anchor
        = Outcome.ok ((parseWheelOrEggRecord (joinLines (ls.map RecordLine.text)),
            [recordRef]), s3) := by
      unfold fetchRecordFiles
      rw [h2]
      simp only []
      rw [h3]
    refine ⟨_, catalogEggOrWheel_ok_of R s s1 s3 s4 anchor c _ _ pkgs topLevelSources
      h1 hrec h4, ?_⟩
    simp [buildPackage, hparse]

theorem catalogEggOrWheel_record_rows_witness :
    parseWheelOrEggRecord (joinLines
        ([RecordLine.row (RecordRow.full "bin/p".toList "sha256".toList "dDhv=".toList
            "220".toList),
          RecordLine.row (RecordRow.bare "pkg/RECORD".toList),
          RecordLine.other []].map RecordLine.text))
      = [{ Path := "bin/p".toList, Digest := some ⟨"sha256".toList, "dDhv=".toList⟩,
           Size := "220".toList },
         { Path := "pkg/RECORD".toList, Digest := none, Size := [] }] :=
  (catalogEggOrWheel_record_rows
    [RecordLine.row (RecordRow.full "bin/p".toList "sha256".toList "dDhv=".toList
        "220".toList),
      RecordLine.row (RecordRow.bare "pkg/RECORD".toList),
      RecordLine.other []] (by decide)).2.2.1

/-- C8: when the sibling top_level.txt is resolved and read, `catalogEggOrWheel` returns
a package and no error, the top_level.txt reference is the last element of Source, and
TopLevelPackages is the list of the trimmed non-empty lines of the content in file
order; in particular it has zero elements when the content is empty or consists only of
white space and blank lines. -/
theorem catalogEggOrWheel_top_level_packages {σ : Type} (R : Resolver σ)
    (s s1 s2 s3 s4 : σ) (anchor topLevelRef : Reference) (c : List Char)
    (files : List PythonFileRecord) (recordSources : List Reference)
    (lines : List (List Char))
    (hlines : ∀ l ∈ lines, '\n' ∉ l)
    (hanchor : R.FileContentsByRef s anchor = Outcome.ok (c, s1))
    (hrecord : fetchRecordFiles R s1 anchor = Outcome.ok ((files, recordSources), s2))
    (hlookup : R.RelativeFileByPath s2 anchor (siblingPath anchor.Path "top_level.txt".toList)
      = Outcome.ok (some topLevelRef, s3))
    (hread : R.FileContentsByRef s3 topLevelRef = Outcome.ok (joinLines lines, s4)) :
    ∃ p, catalogEggOrWheel R s anchor = Outcome.ok (p, s4) ∧
      p.Source = [anchor] ++ recordSources ++ [topLevelRef] ∧
      p.Metadata.TopLevelPackages = (lines.map trimSpace).filter (fun l => !l.isEmpty) ∧
      ((∀ ch ∈ joinLines lines, ch.isWhitespace = true) →
        p.Metadata.TopLevelPackages = [] ∧ p.Metadata.TopLevelPackages.length = 0) ∧
      (∀ l ∈ lines, ∀ lead name trail : List Char, l = lead ++ name ++ trail →
        (∀ ch ∈ lead, ch.isWhitespace = true) → (∀ ch ∈ trail, ch.isWhitespace = true) →
        (∀ ch, name.head? = some ch → ch.isWhitespace = false) →
        (∀ ch, name.getLast? = some ch → ch.isWhitespace = false) →
        trimSpace l = name) := by
  have hparse : parseTopLevel (joinLines lines)
      = (lines.map trimSpace).filter (fun l => !l.isEmpty) := by
    cases lines with
    | nil => rfl
    | cons l0 rest =>
      unfold parseTopLevel
      rw [splitOn_joinLines _ (List.cons_ne_nil _ _) hlines]
  have htop : fetchTopLevelPackages R s2 anchor
      = Outcome.ok ((parseTopLevel (joinLines lines), [topLevelRef]), s4) := by
    unfold fetchTopLevelPackages
    rw [hlookup]
    simp only []
    rw [hread]
  refine ⟨_, catalogEggOrWheel_ok_of R s s1 s2 s4 anchor c files recordSources _ _
    hanchor hrecord htop, rfl, ?_, ?_, ?_⟩
  · simp [buildPackage, hparse]
  · intro hws
    have hnil : (lines.map trimSpace).filter (fun l => !l.isEmpty) = [] := by
      rw [List.filter_eq_nil_iff]
      intro t ht
      obtain ⟨l, hl, rfl⟩ := List.mem_map.mp ht
      have : trimSpace l = [] :=
        trimSpace_of_whitespace l (fun ch hch => hws ch (mem_joinLines lines l ch hl hch))
      simp [this]
    simp [buildPackage, hparse, hnil]
  · intro l _ lead name trail hl h1 h2 h3 h4
    rw [hl]
    exact trimSpace_pad lead name trail h1 h2 h3 h4

theorem catalogEggOrWheel_top_level_packages_witness :
    ∃ p, catalogEggOrWheel mockResolver (openedMockNoRecord "Name: x\n" "  \n\t\n")
        fixtureAnchor = Outcome.ok (p, openedMockNoRecord "" "") ∧
      p.Source = [fixtureAnchor] ++ []
        ++ [⟨2, "test-fixtures/dist-info/top_level.txt".toList⟩] ∧
      p.Metadata.TopLevelPackages
        = (["  ".toList, "\t".toList, []].map trimSpace).filter (fun l => !l.isEmpty) ∧
      ((∀ ch ∈ joinLines ["  ".toList, "\t".toList, []], ch.isWhitespace = true) →
        p.Metadata.TopLevelPackages = [] ∧ p.Metadata.TopLevelPackages.length = 0) ∧
      (∀ l ∈ ["  ".toList, "\t".toList, []], ∀ lead name trail : List Char,
        l = lead ++ name ++ trail →
        (∀ ch ∈ lead, ch.isWhitespace = true) → (∀ ch ∈ trail, ch.isWhitespace = true) →
        (∀ ch, name.head? = some ch → ch.isWhitespace = false) →
        (∀ ch, name.getLast? = some ch → ch.isWhitespace = false) →
        trimSpace l = name) :=
  catalogEggOrWheel_top_level_packages mockResolver
    (openedMockNoRecord "Name: x\n" "  \n\t\n") (openedMockNoRecord "" "  \n\t\n")
    (openedMockNoRecord "" "  \n\t\n") (openedMockNoRecord "" "  \n\t\n")
    (openedMockNoRecord "" "") fixtureAnchor
    ⟨2, "test-fixtures/dist-info/top_level.txt".toList⟩ "Name: x\n".toList [] []
    ["  ".toList, "\t".toList, []]
    (by decide) (by decide) (by decide) (by decide) (by decide)

end python

namespace python

/-! ### Supporting facts about the test double and the engine -/

theorem newTestResolver_opened (fs : List Char → Option OpenFile)
    (metaPath recordPath topPath : List Char) (metadata record topLevel : String)
    (hm : fs metaPath = some (OpenFile.regular metadata.toList))
    (hr : fs recordPath = some (OpenFile.regular record.toList))
    (ht : fs topPath = some (OpenFile.regular topLevel.toList))
    (hrp : recordPath ≠ []) (htp : topPath ≠ []) :
    newTestResolver fs 0 metaPath recordPath topPath
      = Outcome.ok (openedMock metadata record topLevel) := by
  simp [newTestResolver, hm, hr, ht, hrp, htp, openedMock]

theorem newTestResolver_opened_without_record (fs : List Char → Option OpenFile)
    (metaPath topPath : List Char) (metadata topLevel : String)
    (hm : fs metaPath = some (OpenFile.regular metadata.toList))
    (ht : fs topPath = some (OpenFile.regular topLevel.toList))
    (htp : topPath ≠ []) :
    newTestResolver fs 1 metaPath [] topPath
      = Outcome.ok (openedMockNoRecord metadata topLevel) := by
  simp [newTestResolver, hm, ht, htp, openedMockNoRecord]

theorem catalogEggOrWheel_without_siblings {σ : Type} (R : Resolver σ) (s s1 s2 s3 : σ)
    (anchor : Reference) (c : List Char)
    (hanchor : R.FileContentsByRef s anchor = Outcome.ok (c, s1))
    (hrecord : R.RelativeFileByPath s1 anchor (siblingPath anchor.Path "RECORD".toList)
      = Outcome.ok (none, s2))
    (htop : R.RelativeFileByPath s2 anchor (siblingPath anchor.Path "top_level.txt".toList)
      = Outcome.ok (none, s3)) :
    ∃ p, catalogEggOrWheel R s anchor = Outcome.ok (p, s3) ∧ p.Source = [anchor] ∧
      p.Metadata.Files = [] ∧ p.Metadata.TopLevelPackages = [] := by
  have hrec : fetchRecordFiles R s1 anchor = Outcome.ok (([], []), s2) := by
    unfold fetchRecordFiles
    rw [hrecord]
  have htl : fetchTopLevelPackages R s2 anchor = Outcome.ok (([], []), s3) := by
    unfold fetchTopLevelPackages
    rw [htop]
  exact ⟨_, catalogEggOrWheel_ok_of R s s1 s2 s3 anchor c [] [] [] [] hanchor hrec htl,
    rfl, rfl, rfl⟩

end python

namespace python

theorem mem_dropWhile_of_mem (p : Char → Bool) (l : List Char) (x : Char)
    (hx : x ∈ l) (hp : p x = false) : x ∈ l.dropWhile p := by
  induction l with
  | nil => cases hx
  | cons y ys ih =>
    rw [List.dropWhile_cons]
    cases hy : p y with
    | false => simpa using hx
    | true =>
      simp only [if_true]
      rcases List.mem_cons.mp hx with h | h
      · subst h; rw [hp] at hy; cases hy
      · exact ih h

theorem mem_trimSpace_of_mem (l : List Char) (x : Char) (hx : x ∈ l)
    (hp : x.isWhitespace = false) : x ∈ trimSpace l := by
  unfold trimSpace
  rw [List.mem_reverse]
  apply mem_dropWhile_of_mem _ _ _ _ hp
  rw [List.mem_reverse]
  exact mem_dropWhile_of_mem _ _ _ hx hp

theorem headerFields_anchorText (fields : List (List Char × List Char))
    (body : List (List Char)) (hf : ∀ kv ∈ fields, headerWellFormed kv = true)
    (hb : ∀ l ∈ body, '\n' ∉ l) :
    headerFields (anchorText fields body) = fields := by
  have hnl : ∀ l ∈ fields.map headerLine ++ [] :: body, '\n' ∉ l := by
    intro l hl
    rcases List.mem_append.mp hl with h | h
    · obtain ⟨kv, hkv, rfl⟩ := List.mem_map.mp h
      have hw := hf kv hkv
      simp only [headerWellFormed, Bool.and_eq_true, decide_eq_true_eq] at hw
      obtain ⟨⟨⟨_, hk, hv⟩, _⟩, _⟩ := hw
      simp only [headerLine, List.mem_append, List.mem_cons, not_or]
      exact ⟨hk, by decide, by decide, hv⟩
    · rcases List.mem_cons.mp h with h | h
      · subst h; simp
      · exact hb l h
  unfold headerFields anchorText
  rw [splitOn_joinLines _ (by simp) hnl]
  clear hnl
  induction fields with
  | nil => simp [trimSpace]
  | cons kv rest ih =>
    have hw := hf kv (List.mem_cons_self _ _)
    have ih' := ih (fun x hx => hf x (List.mem_cons_of_mem _ hx))
    simp only [headerWellFormed, Bool.and_eq_true, decide_eq_true_eq] at hw
    obtain ⟨⟨⟨hk, _, _⟩, hhead⟩, hlast⟩ := hw
    have hcolon : ':' ∈ headerLine kv := by simp [headerLine]
    have hnb : (!(trimSpace (headerLine kv)).isEmpty) = true := by
      have := mem_trimSpace_of_mem (headerLine kv) ':' hcolon (by decide)
      cases ht : trimSpace (headerLine kv) with
      | nil => rw [ht] at this; cases this
      | cons a b => rfl
    have htrim : trimSpace (' ' :: kv.2) = kv.2 := by
      have := trimSpace_pad [' '] kv.2 [] (by decide) (by simp)
        (by intro ch hch; rw [hch] at hhead; simpa using hhead)
        (by intro ch hch; rw [hch] at hlast; simpa using hlast)
      simpa using this
    have hcut : cutAt ':' (headerLine kv) = (kv.1, ' ' :: kv.2) :=
      cutAt_append_cons ':' kv.1 (' ' :: kv.2) hk
    have htake : List.takeWhile (fun l => !(trimSpace l).isEmpty)
          (headerLine kv :: (List.map headerLine rest ++ [] :: body))
        = headerLine kv :: List.takeWhile (fun l => !(trimSpace l).isEmpty)
            (List.map headerLine rest ++ [] :: body) := by
      rw [List.takeWhile_cons]
      simp only [hnb, if_true]
    rw [List.map_cons, List.cons_append, htake,
      List.filterMap_cons_some (b := kv) (by simp [hcolon, hcut, htrim]), ih']

end python

namespace python

/-- C6: when the anchor is readable and `RelativeFileByPath` returns no reference and no
error for the sibling RECORD path, `catalogEggOrWheel` returns a package and no error,
whether the top_level.txt lookup resolves a reference (whose content is then read) or
none: the metadata Files of the package is empty, its Source is the anchor followed by
the top_level.txt reference if one was resolved, with no RECORD reference, and its Name,
Version and the other header fields are those parsed from the anchor, which for an
anchor made of well-formed `Key: Value` lines, a blank line and a body are the values
of the first header of each key. -/
theorem catalogEggOrWheel_without_record {σ : Type} (R : Resolver σ) (s s1 s2 s3 s4 : σ)
    (anchor : Reference) (c tc : List Char) (topLevelRef : Option Reference)
    (hanchor : R.FileContentsByRef s anchor = Outcome.ok (c, s1))
    (hrecord : R.RelativeFileByPath s1 anchor (siblingPath anchor.Path "RECORD".toList)
      = Outcome.ok (none, s2))
    (hlookup : R.RelativeFileByPath s2 anchor (siblingPath anchor.Path "top_level.txt".toList)
      = Outcome.ok (topLevelRef, s3))
    (hread : match topLevelRef with
      | none => s4 = s3
      | some ref => R.FileContentsByRef s3 ref = Outcome.ok (tc, s4)) :
    ∃ p : Package, catalogEggOrWheel R s anchor = Outcome.ok (p, s4) ∧
      p.Metadata.Files = [] ∧
      p.Source = anchor :: topLevelRef.toList ∧
      p.Name = (parseWheelOrEggMetadata anchor.Path c).Name ∧
      p.Version = (parseWheelOrEggMetadata anchor.Path c).Version ∧
      p.Metadata.Name = (parseWheelOrEggMetadata anchor.Path c).Name ∧
      p.Metadata.Version = (parseWheelOrEggMetadata anchor.Path c).Version ∧
      p.Metadata.License = (parseWheelOrEggMetadata anchor.Path c).License ∧
      p.Metadata.Platform = (parseWheelOrEggMetadata anchor.Path c).Platform ∧
      p.Metadata.Author = (parseWheelOrEggMetadata anchor.Path c).Author ∧
      p.Metadata.AuthorEmail = (parseWheelOrEggMetadata anchor.Path c).AuthorEmail ∧
      (∀ (fields : List (List Char × List Char)) (body : List (List Char)),
        (∀ kv ∈ fields, headerWellFormed kv = true) → (∀ l ∈ body, '\n' ∉ l) →
        c = anchorText fields body →
        p.Name = headerValue fields "Name" ∧
        p.Version = headerValue fields "Version" ∧
        p.Metadata.Name = headerValue fields "Name" ∧
        p.Metadata.Version = headerValue fields "Version" ∧
        p.Metadata.License = headerValue fields "License" ∧
        p.Metadata.Platform = headerValue fields "Platform" ∧
        p.Metadata.Author = headerValue fields "Author" ∧
        p.Metadata.AuthorEmail = headerValue fields "Author-email") := by
  have hrec : fetchRecordFiles R s1 anchor = Outcome.ok (([], []), s2) := by
    unfold fetchRecordFiles
    rw [hrecord]
  have htop : ∃ pkgs, fetchTopLevelPackages R s2 anchor
      = Outcome.ok ((pkgs, topLevelRef.toList), s4) := by
    unfold fetchTopLevelPackages
    rw [hlookup]
    cases topLevelRef with
    | none =>
      simp only [] at hread
      subst hread
      exact ⟨[], rfl⟩
    | some ref =>
      simp only [] at hread ⊢
      rw [hread]
      exact ⟨parseTopLevel tc, rfl⟩
  obtain ⟨pkgs, htop⟩ := htop
  refine ⟨_, catalogEggOrWheel_ok_of R s s1 s2 s4 anchor c [] [] pkgs topLevelRef.toList
    hanchor hrec htop, rfl, ?_, rfl, rfl, rfl, rfl, rfl, rfl, rfl, rfl, ?_⟩
  · simp [buildPackage]
  · intro fields body hf hb hc
    have hfields : headerFields c = fields := by
      rw [hc]
      exact headerFields_anchorText fields body hf hb
    simp [buildPackage, parseWheelOrEggMetadata, hfields]

theorem catalogEggOrWheel_without_record_witness :
    ∃ p : Package,
      catalogEggOrWheel mockResolver
          (openedMockNoRecord "Name: Pygments\nVersion: 2.6.1\n" "pygments\n") fixtureAnchor
        = Outcome.ok (p, openedMockNoRecord "" "") ∧
      p.Metadata.Files = [] ∧
      p.Source = [fixtureAnchor, ⟨2, "test-fixtures/dist-info/top_level.txt".toList⟩] ∧
      p.Name = "Pygments".toList ∧ p.Version = "2.6.1".toList :=
  match catalogEggOrWheel_without_record mockResolver
      (openedMockNoRecord "Name: Pygments\nVersion: 2.6.1\n" "pygments\n")
      (openedMockNoRecord "" "pygments\n") (openedMockNoRecord "" "pygments\n")
      (openedMockNoRecord "" "pygments\n") (openedMockNoRecord "" "")
      fixtureAnchor "Name: Pygments\nVersion: 2.6.1\n".toList "pygments\n".toList
      (some ⟨2, "test-fixtures/dist-info/top_level.txt".toList⟩)
      (by decide) (by decide) (by decide)
      (show mockResolver.FileContentsByRef (openedMockNoRecord "" "pygments\n")
          ⟨2, "test-fixtures/dist-info/top_level.txt".toList⟩
        = Outcome.ok ("pygments\n".toList, openedMockNoRecord "" "") from by decide) with
  | ⟨p, hok, hfiles, hsource, _, _, _, _, _, _, _, _, hheader⟩ =>
    ⟨p, hok, hfiles, hsource,
      (hheader [("Name".toList, "Pygments".toList), ("Version".toList, "2.6.1".toList)] []
        (by decide) (by decide) (by decide)).1,
      (hheader [("Name".toList, "Pygments".toList), ("Version".toList, "2.6.1".toList)] []
        (by decide) (by decide) (by decide)).2.1⟩

end python
